import Mathlib

/-!
Verification of the MapleStory guild/character synchronization tool
(`services.py`, `nexon_api.py`, `blacklist_fetcher.py`, `app.py`,
`tools_basic_backfill.py`) against its natural-language specification.

The Python sources are shallowly embedded: JSON values become the
inductive type `PyVal`, Python dicts become insertion-ordered
association lists with unique keys, SQL upserts become functions from
the optional stored row and the bound parameters to the new row, and
the async pipelines (writer task, incremental sync loop) become pure
functions over explicit event queues and day ranges.  Wall-clock
values are passed explicitly.  All definitions are computable so that
concrete witnesses evaluate by `decide` / `rfl`.
-/

/-! ## Definitions: the shallow embedding -/

/-- Lexicographic (code-point) `≤` on character lists, as Python compares
strings. -/
def charListLe : List Char → List Char → Bool
  | [], _ => true
  | _ :: _, [] => false
  | a :: as, b :: bs =>
    if a.toNat < b.toNat then true
    else if b.toNat < a.toNat then false
    else charListLe as bs

/-- Python's `s1 <= s2` on strings. -/
def pyStrLe (a b : String) : Bool := charListLe a.data b.data

/-- `pyStrLe` as a decidable relation, for use with `List.insertionSort`. -/
def pyStrR (a b : String) : Prop := pyStrLe a b = true

instance : DecidableRel pyStrR := fun a b => instDecidableEqBool (pyStrLe a b) true

inductive PyVal : Type where
  | null : PyVal
  | bool (b : Bool) : PyVal
  | num (n : Int) : PyVal
  | str (s : String) : PyVal
  | arr (elems : List PyVal) : PyVal
  | obj (fields : List (String × PyVal)) : PyVal

/-- A Python dict: insertion-ordered key/value pairs, keys unique. -/
abbrev PyDict := List (String × PyVal)

/-- Python truthiness of a value. -/
def truthy : PyVal → Bool
  | .null => false
  | .bool b => b
  | .num n => decide (n ≠ 0)
  | .str s => decide (s ≠ "")
  | .arr l => !l.isEmpty
  | .obj l => !l.isEmpty

/-- Python `a or b`. -/
def pyOr (a b : PyVal) : PyVal := if truthy a then a else b

/-- `d.get(k)` — `None` when the key is absent. -/
def dGetOpt : PyDict → String → Option PyVal
  | [], _ => none
  | (k', v) :: rest, k => if k' = k then some v else dGetOpt rest k

def dGet (d : PyDict) (k : String) : PyVal := (dGetOpt d k).getD .null

/-- `d[k] = v` — update in place when the key exists (preserving its
position), otherwise append, exactly as a Python dict assignment. -/
def dSet (d : PyDict) (k : String) (v : PyVal) : PyDict :=
  match d with
  | [] => [(k, v)]
  | (k', v') :: rest => if k' = k then (k, v) :: rest else (k', v') :: dSet rest k v

/-- `d.pop(k, None)` — remove the first (for a dict: the only) binding
of `k`. -/
def dPop (d : PyDict) (k : String) : PyDict :=
  d.eraseP (fun p => decide (p.1 = k))

def dKeys (d : PyDict) : List String := d.map Prod.fst

def hexDigit (n : Nat) : Char :=
  if n < 10 then Char.ofNat (48 + n) else Char.ofNat (87 + n % 16)

def escChar (c : Char) : String :=
  if c = '"' then "\\\""
  else if c = '\\' then "\\\\"
  else if c = '\n' then "\\n"
  else if c = '\t' then "\\t"
  else if c = '\r' then "\\r"
  else if c.toNat = 8 then "\\b"
  else if c.toNat = 12 then "\\f"
  else if c.toNat < 32 then
    "\\u00" ++ String.singleton (hexDigit (c.toNat / 16)) ++ String.singleton (hexDigit (c.toNat % 16))
  else String.singleton c

def jsonEscape (s : String) : String :=
  String.join (s.data.map escChar)

mutual

def dumps : PyVal → String
  | .null => "null"
  | .bool true => "true"
  | .bool false => "false"
  | .num n => toString n
  | .str s => "\"" ++ jsonEscape s ++ "\""
  | .arr l => "[" ++ dumpsList l ++ "]"
  | .obj l => "\x7b" ++ dumpsObj l ++ "\x7d"

def dumpsList : List PyVal → String
  | [] => ""
  | [x] => dumps x
  | x :: y :: xs => dumps x ++ ", " ++ dumpsList (y :: xs)

def dumpsObj : List (String × PyVal) → String
  | [] => ""
  | [(k, v)] => "\"" ++ jsonEscape k ++ "\": " ++ dumps v
  | (k, v) :: y :: xs => "\"" ++ jsonEscape k ++ "\": " ++ dumps v ++ ", " ++ dumpsObj (y :: xs)
end

/-- Escape for Python `repr` of a string (backslash, quote and the
common control characters; `repr`'s quote-selection subtlety for
strings containing `'` is elided — no claim exercises it). -/
def reprEscChar (c : Char) : String :=
  if c = '\\' then "\\\\"
  else if c.toNat = 39 then "\\'"
  else if c = '\n' then "\\n"
  else if c = '\t' then "\\t"
  else if c = '\r' then "\\r"
  else String.singleton c

mutual

/-- Python `repr` of a value (containers rendered Python-style). -/
def pyRepr : PyVal → String
  | .null => "None"
  | .bool true => "True"
  | .bool false => "False"
  | .num n => toString n
  | .str s => "'" ++ String.join (s.data.map reprEscChar) ++ "'"
  | .arr l => "[" ++ pyReprList l ++ "]"
  | .obj l => "\x7b" ++ pyReprObj l ++ "\x7d"

def pyReprList : List PyVal → String
  | [] => ""
  | [x] => pyRepr x
  | x :: y :: xs => pyRepr x ++ ", " ++ pyReprList (y :: xs)

def pyReprObj : List (String × PyVal) → String
  | [] => ""
  | [(k, v)] => "'" ++ String.join (k.data.map reprEscChar) ++ "': " ++ pyRepr v
  | (k, v) :: y :: xs =>
    "'" ++ String.join (k.data.map reprEscChar) ++ "': " ++ pyRepr v ++ ", " ++ pyReprObj (y :: xs)
end

/-- Python `str()` of a value: identity on strings, `repr`-like otherwise. -/
def pyStr : PyVal → String
  | .str s => s
  | v => pyRepr v

/-- ASCII whitespace stripped by Python's `str.strip()` (Unicode
whitespace beyond ASCII does not occur in the data under test). -/
def pyIsSpace (c : Char) : Bool :=
  c = ' ' || c = '\t' || c = '\n' || c = '\r' || decide (c.toNat = 11) || decide (c.toNat = 12)

def pyStrip (s : String) : String :=
  String.mk (((s.data.dropWhile pyIsSpace).reverse.dropWhile pyIsSpace).reverse)

def isPrefixChars : List Char → List Char → Bool
  | [], _ => true
  | _ :: _, [] => false
  | a :: as, b :: bs => decide (a = b) && isPrefixChars as bs

/-- Fuel-indexed scanner for Python's non-overlapping `str.count`:
match at the current position and jump past the match, else advance
one character.  Fuel = haystack length always suffices (each step
consumes at least one character). -/
def countSubFuel (needle : List Char) : Nat → List Char → Nat
  | 0, _ => 0
  | _ + 1, [] => 0
  | fuel + 1, c :: rest =>
    if isPrefixChars needle (c :: rest)
    then 1 + countSubFuel needle fuel (rest.drop (needle.length - 1))
    else countSubFuel needle fuel rest

/-- Python `hay.count(needle)` (non-overlapping, left to right). -/
def pyCount (hay needle : String) : Nat :=
  if needle = "" then hay.length + 1 else countSubFuel needle.data hay.data.length hay.data

/-- The fixed disfavored marker token (the item-drop-rate potential line). -/
def drop_rate_marker : String := "道具掉落率"

/-- `count_drop_rate_mentions` from services.py. -/
def count_drop_rate_mentions (raw_json_text : String) : Nat :=
  if raw_json_text = "" then 0 else pyCount raw_json_text drop_rate_marker

/-- `_slot_key`: the item's slot, falling back to its part, stringified
and stripped. -/
def _slot_key (it : PyDict) : String :=
  pyStrip (pyStr (pyOr (dGet it "item_equipment_slot")
    (pyOr (dGet it "item_equipment_part") (.str ""))))

/-- One pass of `_merge_items`' dict building: skip non-dict items and
items with an empty slot key, otherwise `merged[k] = it`. -/
def addItems (m : PyDict) (its : List PyVal) : PyDict :=
  its.foldl (fun m it =>
    match it with
    | .obj fields =>
      let k := _slot_key fields
      if k = "" then m else dSet m k (.obj fields)
    | _ => m) m

/-- The dict built by `_merge_items`: base first (fills gaps), then
the preset overwrites (preset wins on conflict). -/
def mergedDict (base preset : List PyVal) : PyDict :=
  addItems (addItems [] base) preset

/-- `_merge_items`: the merged dict's items in ascending slot-key
order. -/
def _merge_items (base preset : List PyVal) : List PyVal :=
  (List.insertionSort pyStrR (dKeys (mergedDict base preset))).map
    (fun k => dGet (mergedDict base preset) k)

/-- An item the merge keeps: a dict with a non-empty slot key. -/
def wfItem : PyVal → Bool
  | .obj f => decide (_slot_key f ≠ "")
  | _ => false

/-- The slot key of an item (empty for non-dict items). -/
def itemKey : PyVal → String
  | .obj f => _slot_key f
  | _ => ""

/-- The candidate tuple `(drop_cnt, prefer2_flag, preset_no, merged_items)`. -/
structure PresetCandidate where
  cnt : Nat
  flag : Nat
  no : Nat
  items : List PyVal

def preset_keys : List (Nat × String) :=
  [(1, "item_equipment_preset_1"), (2, "item_equipment_preset_2"), (3, "item_equipment_preset_3")]

/-- `equip_json.get("item_equipment")`, defaulting to `[]` when absent
or not a list. -/
def base_items_of (e : PyDict) : List PyVal :=
  match dGet e "item_equipment" with
  | .arr l => l
  | _ => []

/-- The candidate built for one preset key, empty when the preset list
is absent, not a list, or empty. -/
def candOf (e : PyDict) (nk : Nat × String) : List PresetCandidate :=
  match dGet e nk.2 with
  | .arr l =>
    if l.isEmpty then []
    else
      let merged := _merge_items (base_items_of e) l
      let raw := dumps (.arr merged)
      [{ cnt := count_drop_rate_mentions raw
         flag := if nk.1 = 2 then 0 else 1
         no := nk.1
         items := merged }]
  | _ => []

/-- The candidate list accumulated over `preset_keys`, in order. -/
def preset_candidates (e : PyDict) : List PresetCandidate :=
  (preset_keys.map (candOf e)).flatten

/-- The sort key order `(cnt, flag, no)` used by `candidates.sort`. -/
def candLe (a b : PresetCandidate) : Bool :=
  decide (a.cnt < b.cnt) ||
    (decide (a.cnt = b.cnt) &&
      (decide (a.flag < b.flag) ||
        (decide (a.flag = b.flag) && decide (a.no ≤ b.no))))

def candR (a b : PresetCandidate) : Prop := candLe a b = true

instance : DecidableRel candR := fun a b => instDecidableEqBool (candLe a b) true

/-- `pick_best_preset_by_lowest_drop_rate` from services.py: build the
candidates, sort by `(cnt, prefer2_flag, preset_no)`, take the head,
drop the three preset keys and rewrite `preset_no` /
`item_equipment`.  An empty record or an empty candidate list is
passed through unchanged. -/
def pick_best_preset_by_lowest_drop_rate (equip_json : PyDict) : PyDict :=
  if equip_json.isEmpty then equip_json
  else
    match List.insertionSort candR (preset_candidates equip_json) with
    | [] => equip_json
    | best :: _ =>
      let trimmed := preset_keys.foldl (fun d nk => dPop d nk.2) equip_json
      dSet (dSet trimmed "preset_no" (.num best.no)) "item_equipment" (.arr best.items)

def isLeapYear (y : Nat) : Bool := (y % 4 = 0 && decide (y % 100 ≠ 0)) || y % 400 = 0

def daysInMonth (y m : Nat) : Nat :=
  if m = 2 then (if isLeapYear y then 29 else 28)
  else if m = 4 || m = 6 || m = 9 || m = 11 then 30
  else 31

structure Ymd where
  year : Nat
  month : Nat
  day : Nat
deriving DecidableEq

/-- Validity as enforced by the `datetime.date` constructor
(`MINYEAR = 1`, `MAXYEAR = 9999`). -/
def validYmd (d : Ymd) : Bool :=
  1 ≤ d.year && d.year ≤ 9999 && 1 ≤ d.month && d.month ≤ 12 &&
    1 ≤ d.day && d.day ≤ daysInMonth d.year d.month

def daysBeforeYear (y : Nat) : Nat :=
  365 * (y - 1) + ((y - 1) / 4 + (y - 1) / 400 - (y - 1) / 100)

/-- Cumulative days before month `m` (1-based) of year `y`. -/
def daysBeforeMonth (y m : Nat) : Nat :=
  (List.getD [0, 0, 31, 59, 90, 120, 151, 181, 212, 243, 273, 304, 334] m 0) +
    (if 2 < m && isLeapYear y then 1 else 0)

/-- `date.toordinal()`. -/
def toordinal (d : Ymd) : Int :=
  ((daysBeforeYear d.year + daysBeforeMonth d.year d.month + d.day : Nat) : Int)

def isDigitChar (c : Char) : Bool := decide (48 ≤ c.toNat) && decide (c.toNat ≤ 57)

def digitsToNat (l : List Char) : Nat := l.foldl (fun acc c => acc * 10 + (c.toNat - 48)) 0

/-- The `"%Y/%m/%d"` shape accepted by `datetime.strptime`: exactly four
year digits, separator, one or two month digits, separator, one or two
day digits, nothing else; the resulting numbers must form a valid
calendar date (strptime's range constraints on month/day are subsumed
by `validYmd`). -/
def parseSlashStrict (l : List Char) : Option Ymd :=
  match l with
  | y1 :: y2 :: y3 :: y4 :: '/' :: rest =>
    if [y1, y2, y3, y4].all isDigitChar then
      let ms := rest.takeWhile isDigitChar
      match rest.dropWhile isDigitChar with
      | '/' :: rest2 =>
        if 1 ≤ ms.length && ms.length ≤ 2 then
          let ds := rest2.takeWhile isDigitChar
          if rest2.dropWhile isDigitChar = [] then
            if 1 ≤ ds.length && ds.length ≤ 2 then
              let d : Ymd := ⟨digitsToNat [y1, y2, y3, y4], digitsToNat ms, digitsToNat ds⟩
              if validYmd d then some d else none
            else none
          else none
        else none
      | _ => none
    else none
  | _ => none

/-- The exact `YYYY-MM-DD` shape accepted by `date.fromisoformat`
(CPython 3.10), validated by the `date` constructor. -/
def parseIsoDateOnly : List Char → Option Ymd
  | [y1, y2, y3, y4, '-', m1, m2, '-', d1, d2] =>
    if [y1, y2, y3, y4, m1, m2, d1, d2].all isDigitChar then
      let d : Ymd := ⟨digitsToNat [y1, y2, y3, y4], digitsToNat [m1, m2], digitsToNat [d1, d2]⟩
      if validYmd d then some d else none
    else none
  | _ => none

/-- `parse_ymd` from app.py: empty text is `None`; after stripping, a
text containing `/` goes through `strptime("%Y/%m/%d")`, otherwise
through `date.fromisoformat`; any parse error yields `None`. -/
def parse_ymd (s : String) : Option Ymd :=
  if s = "" then none
  else
    let t := pyStrip s
    if t.data.any (fun c => decide (c = '/')) then parseSlashStrict t.data
    else parseIsoDateOnly t.data

/-- The regex `^\s*(\d{4})/(\d{1,2})/(\d{1,2})\s*$` of
`_is_permanent_unblock_date` (blacklist_fetcher.py): the year/month/day
shape with no calendar validation. -/
def parseYmdLoose (l0 : List Char) : Option (Nat × Nat × Nat) :=
  let l := l0.dropWhile pyIsSpace
  match l with
  | y1 :: y2 :: y3 :: y4 :: '/' :: rest =>
    if [y1, y2, y3, y4].all isDigitChar then
      let ms := rest.takeWhile isDigitChar
      match rest.dropWhile isDigitChar with
      | '/' :: rest2 =>
        if 1 ≤ ms.length && ms.length ≤ 2 then
          let ds := rest2.takeWhile isDigitChar
          if (rest2.dropWhile isDigitChar).all pyIsSpace then
            if 1 ≤ ds.length && ds.length ≤ 2 then
              some (digitsToNat [y1, y2, y3, y4], digitsToNat ms, digitsToNat ds)
            else none
          else none
        else none
      | _ => none
    else none
  | _ => none

/-- `_is_permanent_unblock_date` from blacklist_fetcher.py: strip, then
the loose `YYYY/M/D` shape with year `≥ 2079`. -/
def _is_permanent_unblock_date (unblocked_date_text : String) : Bool :=
  let s := pyStrip unblocked_date_text
  if s = "" then false
  else
    match parseYmdLoose s.data with
    | none => false
    | some (y, _, _) => decide (2079 ≤ y)

/-- `is_permanent_unblock_date` from app.py. -/
def is_permanent_unblock_date (unblocked : String) : Bool :=
  match parse_ymd unblocked with
  | none => false
  | some d => decide (2079 ≤ d.year)

/-- `is_7day_lock` from app.py: both dates parse, the span is between
1 and 7 days inclusive, and the unblock year is below 2079. -/
def is_7day_lock (blocked unblocked : String) : Bool :=
  match parse_ymd blocked, parse_ymd unblocked with
  | some bd, some ud =>
    decide (toordinal ud - toordinal bd ≤ 7) &&
      decide (1 ≤ toordinal ud - toordinal bd) && decide (ud.year < 2079)
  | _, _ => false

def rowStrField (row : PyDict) (k : String) : String :=
  match dGet row k with
  | .str s => pyStrip s
  | _ => ""

def addUnique (acc : List String) (nm : String) : List String :=
  if acc.contains nm then acc else acc ++ [nm]

def extract_names (list_data : List PyDict) : List String :=
  list_data.foldl (fun acc row =>
    let nm := rowStrField row "characterName"
    if nm = "" then acc else addUnique acc nm) []

def extract_permanent_names (list_data : List PyDict) : List String :=
  list_data.foldl (fun acc row =>
    let nm := rowStrField row "characterName"
    let ub := rowStrField row "unBlockedDate"
    if nm ≠ "" && _is_permanent_unblock_date ub then addUnique acc nm else acc) []

structure WallClock where
  day : Int
  microOfDay : Nat

def cutoverMicros : Nat := 6 * 3600 * 1000000

def latest_available_blacklist_date (now : WallClock) : Int :=
  if now.microOfDay < cutoverMicros then now.day - 2 else now.day - 1

def _latest_available_block_date (now : WallClock) : Int :=
  if now.microOfDay < cutoverMicros then now.day - 2 else now.day - 1

structure CharRow where
  character_name : String
  world_name : String
  character_gender : Option String
  character_class : Option String
  character_class_level : Option Int
  character_level : Option Int
  character_exp : Option Int
  character_exp_rate : Option Rat
  character_guild_name : Option String
  character_image : Option String
  character_date_create : Option String
  liberation_quest_clear : Option Int
  access_flag : Option Int
  updated_at : Option String
deriving DecidableEq

/-- SQL `COALESCE(a, b)`. -/
def sqlCoalesce {α : Type} : Option α → Option α → Option α
  | some x, _ => some x
  | none, b => b

/-- The `ON CONFLICT(ocid) DO UPDATE` of `update_characters`
(services.py): every column is set to its `excluded.` value — a plain
overwrite of the whole row. -/
def upsert_characters_services (existing : Option CharRow) (excluded : CharRow) : CharRow :=
  match existing with
  | none => excluded
  | some _ => excluded

/-- The `ON CONFLICT(ocid) DO UPDATE` of `write_basic_results`
(tools_basic_backfill.py): `COALESCE` for the optional text fields,
keep-nonzero for `character_class_level`, keep-max (`CASE WHEN
excluded > COALESCE(stored, 0)`) for `character_level` and
`character_exp`. -/
def upsert_characters_backfill (existing : Option CharRow) (excluded : CharRow) : CharRow :=
  match existing with
  | none => excluded
  | some old =>
    { character_name := excluded.character_name
      world_name := excluded.world_name
      character_gender := sqlCoalesce excluded.character_gender old.character_gender
      character_class := sqlCoalesce excluded.character_class old.character_class
      character_class_level :=
        match excluded.character_class_level with
        | some v => if v ≠ 0 then some v else old.character_class_level
        | none => old.character_class_level
      character_level :=
        match excluded.character_level with
        | some v =>
          if v > old.character_level.getD 0 then some v else some (old.character_level.getD 0)
        | none => some (old.character_level.getD 0)
      character_exp :=
        match excluded.character_exp with
        | some v =>
          if v > old.character_exp.getD 0 then some v else some (old.character_exp.getD 0)
        | none => some (old.character_exp.getD 0)
      character_exp_rate := sqlCoalesce excluded.character_exp_rate old.character_exp_rate
      character_guild_name := sqlCoalesce excluded.character_guild_name old.character_guild_name
      character_image := sqlCoalesce excluded.character_image old.character_image
      character_date_create := sqlCoalesce excluded.character_date_create old.character_date_create
      liberation_quest_clear := excluded.liberation_quest_clear
      access_flag := excluded.access_flag
      updated_at := excluded.updated_at }

inductive HttpResult where
  | response (status : Nat) (jsonBody : Option PyVal) (text : String)
  | exn (msg : String)

inductive ApiErr where
  | httpStatus (status : Nat) (body : String)
  | exception (msg : String)

/-- `_get_json` from nexon_api.py. -/
def _get_json (r : HttpResult) : Option PyVal × Option ApiErr :=
  match r with
  | .exn m => (none, some (.exception m))
  | .response st body text =>
    if st ≠ 200 then (none, some (.httpStatus st text))
    else
      match body with
      | some j => (some j, none)
      | none => (none, some (.exception "json decode failed"))

/-- The shared `return data if data else None` tail of every client
method. -/
def returnTruthy (dr : Option PyVal × Option ApiErr) : Option PyVal :=
  match dr.1 with
  | some j => if truthy j then some j else none
  | none => none

def get_ocid (r : HttpResult) : Option PyVal := returnTruthy (_get_json r)

def get_basic (r : HttpResult) : Option PyVal := returnTruthy (_get_json r)

def get_stat (_date_str : Option String) (r : HttpResult) : Option PyVal :=
  returnTruthy (_get_json r)

def get_guild_id (r : HttpResult) : Option PyVal := returnTruthy (_get_json r)

def get_guild_basic (r : HttpResult) : Option PyVal := returnTruthy (_get_json r)

def get_item_equipment (_date_str : Option String) (r : HttpResult) : Option PyVal :=
  returnTruthy (_get_json r)

def tryApply {α ι : Type} (applyI : ι → α → Option α) (d : α) (i : ι) : α :=
  (applyI i d).getD d

def writer_loop {α ι : Type} (applyI : ι → α → Option α) (db_batch : Nat) :
    List (Option ι) → α → α → Nat → α
  | [], committed, _tx, _pending => committed
  | none :: _, committed, tx, pending => if pending > 0 then tx else committed
  | some it :: rest, committed, tx, pending =>
    let tx' := tryApply applyI tx it
    let pending' := pending + 1
    if pending' ≥ db_batch then writer_loop applyI db_batch rest tx' tx' 0
    else writer_loop applyI db_batch rest committed tx' pending'

/-- `writer_task`: consume queue items until the sentinel, then flush;
returns the final committed storage state. -/
def writer_task {α ι : Type} (applyI : ι → α → Option α) (db_batch : Nat)
    (queue : List (Option ι)) (db0 : α) : α :=
  writer_loop applyI db_batch queue db0 db0 0

def replaceFuel (old new : List Char) : Nat → List Char → List Char
  | 0, l => l
  | _ + 1, [] => []
  | fuel + 1, c :: rest =>
    if isPrefixChars old (c :: rest)
    then new ++ replaceFuel old new fuel (rest.drop (old.length - 1))
    else c :: replaceFuel old new fuel rest

/-- Python `s.replace(old, new)` for non-empty `old` (the source only
replaces `"Z"`). -/
def pyReplace (s old new : String) : String :=
  if old = "" then s
  else String.mk (replaceFuel old.data new.data s.data.length s.data)

/-- Two ASCII digits, returning the value and the remaining input. -/
def twoDigits : List Char → Option (Nat × List Char)
  | a :: b :: rest =>
    if isDigitChar a && isDigitChar b then some (digitsToNat [a, b], rest) else none
  | _ => none

/-- CPython 3.10 `_parse_isoformat_time`'s component scan
`_parse_hh_mm_ss_ff`: `HH`, `HH:MM`, `HH:MM:SS`, `HH:MM:SS.fff` or
`HH:MM:SS.ffffff`; returns `(hh, mm, ss, microseconds)` without range
checks. -/
def parse_hh_mm_ss_ff (l : List Char) : Option (Nat × Nat × Nat × Nat) :=
  match twoDigits l with
  | none => none
  | some (hh, r1) =>
    match r1 with
    | [] => some (hh, 0, 0, 0)
    | ':' :: r2 =>
      match twoDigits r2 with
      | none => none
      | some (mm, r3) =>
        match r3 with
        | [] => some (hh, mm, 0, 0)
        | ':' :: r4 =>
          match twoDigits r4 with
          | none => none
          | some (ss, r5) =>
            match r5 with
            | [] => some (hh, mm, ss, 0)
            | '.' :: fr =>
              if fr.all isDigitChar then
                if fr.length = 3 then some (hh, mm, ss, digitsToNat fr * 1000)
                else if fr.length = 6 then some (hh, mm, ss, digitsToNat fr)
                else none
              else none
            | _ => none
        | _ => none
    | _ => none

def findChar (c : Char) (l : List Char) : Option Nat := l.findIdx? (fun x => decide (x = c))

/-- Split the time text at the timezone sign, as `fromisoformat` does
with `tstr.find('-') + 1 or tstr.find('+') + 1`. -/
def isoTzSplit (l : List Char) : List Char × Option (List Char) :=
  match findChar '-' l with
  | some i => (l.take i, some (l.drop (i + 1)))
  | none =>
    match findChar '+' l with
    | some i => (l.take i, some (l.drop (i + 1)))
    | none => (l, none)

/-- Validity of the time-of-day (plus optional offset) text: the
`time` constructor range-checks the clock components; the offset is
length-restricted to 5/8/15 and must stay strictly below 24 hours. -/
def validTimeTz (l : List Char) : Bool :=
  let (timestr, tz) := isoTzSplit l
  match parse_hh_mm_ss_ff timestr with
  | none => false
  | some (hh, mm, ss, _us) =>
    (hh ≤ 23 && mm ≤ 59 && ss ≤ 59) &&
      match tz with
      | none => true
      | some tzstr =>
        (tzstr.length = 5 || tzstr.length = 8 || tzstr.length = 15) &&
          match parse_hh_mm_ss_ff tzstr with
          | none => false
          | some (th, tm, ts, tus) =>
            decide ((th * 3600 + tm * 60 + ts) * 1000000 + tus < 86400000000)

/-- `datetime.fromisoformat(s).date()` (CPython 3.10): ten-character
date part, character 10 (when present) is an unchecked separator, the
rest — when non-empty — must be a valid time-of-day with optional
offset. -/
def fromisoformat_date (s : String) : Option Ymd :=
  let l := s.data
  match parseIsoDateOnly (l.take 10) with
  | none => none
  | some d =>
    let tpart := l.drop 11
    if tpart.isEmpty then some d
    else if validTimeTz tpart then some d else none

/-- `_days_since` from services.py: parse (after replacing `"Z"`),
then days from the parsed date to today; any parse failure yields
`999999`. -/
def _days_since (today : Int) (iso_dt : String) : Int :=
  match fromisoformat_date (pyReplace iso_dt "Z" "+00:00") with
  | some d => today - toordinal d
  | none => 999999

/-- The `characters` table restricted to what `should_refresh_character`
reads: ocid → the stored `updated_at` (a row may hold SQL NULL). -/
abbrev UpdatedAtDb := List (String × Option String)

/-- `_basic_updated_at`: `row[0] if row else None`. -/
def _basic_updated_at (db : UpdatedAtDb) (ocid : String) : Option String :=
  match db.find? (fun p => decide (p.1 = ocid)) with
  | some p => p.2
  | none => none

/-- `should_refresh_character` from services.py (the wall-clock day
ordinal is passed explicitly). -/
def should_refresh_character (today : Int) (db : UpdatedAtDb) (ocid : String)
    (refresh_days : Int) : Bool :=
  match _basic_updated_at db ocid with
  | none => true
  | some s => if s = "" then true else decide (_days_since today s ≥ refresh_days)

inductive SyncEvent where
  | fetchDay (d : Int)
  | applyNames (d : Int) (names : List String)
  | persistCursor (d : Int)
deriving DecidableEq

def dayEvents (fetchRows : Int → List PyDict) (permanent_only : Bool) (d : Int) :
    List SyncEvent :=
  let rows := fetchRows d
  let names := if permanent_only then extract_permanent_names rows else extract_names rows
  [.fetchDay d] ++ (if names.isEmpty then [] else [.applyNames d names]) ++ [.persistCursor d]

/-- The `while cur_day <= latest` loop, counted by the number of days. -/
def sync_days (fetchRows : Int → List PyDict) (permanent_only : Bool) (start : Int) :
    Nat → List SyncEvent
  | 0 => []
  | n + 1 =>
    dayEvents fetchRows permanent_only start ++ sync_days fetchRows permanent_only (start + 1) n

structure SyncResult where
  ran : Bool
  reason : Option String
  start : Option Int
  latest : Option Int
  total_days : Option Int
  trace : List SyncEvent
deriving DecidableEq

/-- The run's start day: `date.fromisoformat(last) + timedelta(days=1)`
when a cursor is persisted, else the configured first start date. -/
def syncStartOf (first_start_date : Int) (last_sync : Option Int) : Int :=
  match last_sync with
  | some l => l + 1
  | none => first_start_date

/-- `sync_blacklist_incremental`: guard on the configured first start
date, resume at cursor + 1 (or at the first start date when no cursor
is persisted), report `"up-to-date"` without any work when the start
is past the latest available day, otherwise process every day from
start through latest. -/
def sync_blacklist_incremental (fetchRows : Int → List PyDict) (now : WallClock)
    (first_start_date : Int) (last_sync : Option Int) (permanent_only : Bool) : SyncResult :=
  let latest := _latest_available_block_date now
  if latest < first_start_date then
    { ran := false, reason := some "latest < first_start_date", start := none, latest := none,
      total_days := none, trace := [] }
  else
    let start := syncStartOf first_start_date last_sync
    if start > latest then
      { ran := false, reason := some "up-to-date", start := some start, latest := some latest,
        total_days := none, trace := [] }
    else
      { ran := true, reason := none, start := some start, latest := some latest,
        total_days := some (latest - start + 1),
        trace := sync_days fetchRows permanent_only start (latest - start + 1).toNat }

/-- The sequence of cursor values persisted along a trace. -/
def cursorWrites : List SyncEvent → List Int
  | [] => []
  | .persistCursor d :: rest => d :: cursorWrites rest
  | _ :: rest => cursorWrites rest

/-- A stored profile row at level 200 with every optional field
present. -/
def rowStored200 : CharRow :=
  { character_name := "角色一"
    world_name := "挑戰者"
    character_gender := some "男"
    character_class := some "英雄"
    character_class_level := some 6
    character_level := some 200
    character_exp := some 100000
    character_exp_rate := some 50
    character_guild_name := some "公會"
    character_image := some "https://img.example/one"
    character_date_create := some "2020-01-01"
    liberation_quest_clear := some 1
    access_flag := some 1
    updated_at := some "2025-10-01T00:00:00" }

/-- Incoming upsert parameters carrying level 180 and omitting the
optional profile fields (as the worker builds them when the API body
lacks those keys). -/
def rowIncoming180 : CharRow :=
  { character_name := "角色一"
    world_name := "挑戰者"
    character_gender := none
    character_class := none
    character_class_level := some 0
    character_level := some 180
    character_exp := some 0
    character_exp_rate := some 0
    character_guild_name := none
    character_image := none
    character_date_create := none
    liberation_quest_clear := some 0
    access_flag := some 0
    updated_at := some "2025-10-12T00:00:00" }

/-- The fail-soft contract of one client method: every error outcome
yields the absent value, a truthy parsed success body is returned as
data, a falsy parsed success body also yields the absent value. -/
def failsSoft (f : HttpResult → Option PyVal) : Prop :=
  (∀ st body text, st ≠ 200 → f (.response st body text) = none) ∧
  (∀ m, f (.exn m) = none) ∧
  (∀ text, f (.response 200 none text) = none) ∧
  (∀ j text, truthy j = true → f (.response 200 (some j) text) = some j) ∧
  (∀ j text, truthy j = false → f (.response 200 (some j) text) = none)

/-- A concrete intent semantics for the C9 witness: intent `0` always
fails, intent `i ≠ 0` appends `i` to the stored log. -/
def exApply : Nat → List Nat → Option (List Nat) :=
  fun i d => if i = 0 then none else some (d ++ [i])

/-- An external-listing oracle with no rows on any day. -/
def noRows : Int → List PyDict := fun _ => []

/-- The ascending day range `[a, a+1, ..., b]`. -/
def intRange (a b : Int) : List Int :=
  (List.range (b - a + 1).toNat).map (fun (i : Nat) => a + (i : Int))

/-- The equipment key carrying preset `no`'s candidate list. -/
def preset_key_name : Nat → String
  | 1 => "item_equipment_preset_1"
  | 2 => "item_equipment_preset_2"
  | 3 => "item_equipment_preset_3"
  | _ => ""

/-- Concrete equipment record for the C1 witness: the base holds a
ring with a drop-rate line, preset 1 a weapon with a drop-rate line,
preset 2 a weapon without one — preset 2 wins at cost 1. -/
def itemEx (slot potential : String) : PyVal :=
  .obj [("item_equipment_slot", .str slot), ("potential_option_1", .str potential)]

def equipEx : PyDict :=
  [("character_class", .str "英雄"),
   ("item_equipment", .arr [itemEx "戒指" "道具掉落率 : +20%"]),
   ("item_equipment_preset_1", .arr [itemEx "武器" "道具掉落率 : +20%"]),
   ("item_equipment_preset_2", .arr [itemEx "武器" "攻擊力 : +12%"])]

/-- Concrete item lists for the C5 witness (distinct non-empty slot
keys; one slot shared between base and candidate). -/
def baseEx : List PyVal :=
  [itemEx "戒指" "道具掉落率 : +20%", itemEx "帽子" "攻擊力 : +9%"]

def presetEx : List PyVal :=
  [itemEx "武器" "攻擊力 : +12%", itemEx "帽子" "爆擊率 : +8%"]

/-! ## Theorems -/

theorem char_toNat_inj {a b : Char} (h : a.toNat = b.toNat) : a = b := by
  rw [← Char.ofNat_toNat a, ← Char.ofNat_toNat b, h]

theorem charListLe_total (a b : List Char) : charListLe a b = true ∨ charListLe b a = true := by
  induction a generalizing b with
  | nil => left; rfl
  | cons x xs ih =>
    cases b with
    | nil => right; rfl
    | cons y ys =>
      rcases Nat.lt_trichotomy x.toNat y.toNat with h | h | h
      · left; simp [charListLe, h]
      · have hxy : x = y := char_toNat_inj h
        subst hxy
        simpa only [charListLe, lt_irrefl, if_false] using ih ys
      · right; simp [charListLe, h]

theorem charListLe_trans {a b c : List Char} (h1 : charListLe a b = true)
    (h2 : charListLe b c = true) : charListLe a c = true := by
  induction a generalizing b c with
  | nil => rfl
  | cons x xs ih =>
    cases b with
    | nil => simp [charListLe] at h1
    | cons y ys =>
      cases c with
      | nil => simp [charListLe] at h2
      | cons z zs =>
        simp only [charListLe] at h1 h2 ⊢
        rcases Nat.lt_trichotomy x.toNat y.toNat with hxy | hxy | hxy
        · rcases Nat.lt_trichotomy y.toNat z.toNat with hyz | hyz | hyz
          · simp [show x.toNat < z.toNat by omega]
          · simp [show x.toNat < z.toNat by omega]
          · rw [if_neg (by omega), if_pos hyz] at h2; exact absurd h2 (by simp)
        · rcases Nat.lt_trichotomy y.toNat z.toNat with hyz | hyz | hyz
          · simp [show x.toNat < z.toNat by omega]
          · rw [if_neg (by omega), if_neg (by omega)] at h1 h2 ⊢
            exact ih h1 h2
          · rw [if_neg (by omega), if_pos hyz] at h2; exact absurd h2 (by simp)
        · rw [if_neg (by omega), if_pos hxy] at h1; exact absurd h1 (by simp)

theorem charListLe_antisymm {a b : List Char} (h1 : charListLe a b = true)
    (h2 : charListLe b a = true) : a = b := by
  induction a generalizing b with
  | nil =>
    cases b with
    | nil => rfl
    | cons y ys => simp [charListLe] at h2
  | cons x xs ih =>
    cases b with
    | nil => simp [charListLe] at h1
    | cons y ys =>
      simp only [charListLe] at h1 h2
      rcases Nat.lt_trichotomy x.toNat y.toNat with hxy | hxy | hxy
      · rw [if_neg (by omega), if_pos hxy] at h2; exact absurd h2 (by simp)
      · have hx : x = y := char_toNat_inj hxy
        subst hx
        rw [if_neg (by omega), if_neg (by omega)] at h1 h2
        rw [ih h1 h2]
      · rw [if_neg (by omega), if_pos hxy] at h1; exact absurd h1 (by simp)

theorem pyStrR_refl (a : String) : pyStrR a a := by
  rcases charListLe_total a.data a.data with h | h <;> exact h

instance : IsTotal String pyStrR := ⟨fun a b => charListLe_total a.data b.data⟩

instance : IsTrans String pyStrR := ⟨fun _ _ _ h1 h2 => charListLe_trans h1 h2⟩

instance : IsAntisymm String pyStrR :=
  ⟨fun a b h1 h2 => by
    cases a; cases b
    exact congrArg String.mk (charListLe_antisymm h1 h2)⟩

theorem candR_refl (a : PresetCandidate) : candR a a := by
  simp [candR, candLe]

instance : IsTotal PresetCandidate candR :=
  ⟨fun a b => by simp only [candR, candLe, Bool.or_eq_true, Bool.and_eq_true,
      decide_eq_true_eq]; omega⟩

instance : IsTrans PresetCandidate candR :=
  ⟨fun a b c h1 h2 => by
    simp only [candR, candLe, Bool.or_eq_true, Bool.and_eq_true, decide_eq_true_eq] at h1 h2 ⊢
    omega⟩

/-- C8: at every wall-clock instant strictly before the fixed 06:00
local cutover hour the latest available listing day equals today minus
two days, and at or after the cutover hour it equals today minus one
day — for both copies of the rule (`latest_available_blacklist_date`
in app.py and `_latest_available_block_date` in services.py). -/
theorem C8_availability_cutover (now : WallClock) :
    (now.microOfDay < 21600000000 →
      latest_available_blacklist_date now = now.day - 2 ∧
        _latest_available_block_date now = now.day - 2) ∧
    (21600000000 ≤ now.microOfDay →
      latest_available_blacklist_date now = now.day - 1 ∧
        _latest_available_block_date now = now.day - 1) := by
  constructor <;> intro h
  · have hc : now.microOfDay < cutoverMicros := by
      show now.microOfDay < 6 * 3600 * 1000000
      omega
    exact ⟨by simp [latest_available_blacklist_date, hc],
      by simp [_latest_available_block_date, hc]⟩
  · have hc : ¬ now.microOfDay < cutoverMicros := by
      show ¬ now.microOfDay < 6 * 3600 * 1000000
      omega
    exact ⟨by simp [latest_available_blacklist_date, hc],
      by simp [_latest_available_block_date, hc]⟩

/-- Witness for C8: one microsecond before 06:00 yields today − 2, and
06:00 sharp yields today − 1. -/
theorem C8_availability_cutover_witness :
    latest_available_blacklist_date ⟨739617, 21599999999⟩ = 739617 - 2 ∧
      _latest_available_block_date ⟨739617, 21600000000⟩ = 739617 - 1 :=
  ⟨((C8_availability_cutover ⟨739617, 21599999999⟩).1 (by decide)).1,
    ((C8_availability_cutover ⟨739617, 21600000000⟩).2 (by decide)).2⟩

/-- C10: `should_refresh_character` returns `true` whenever no
freshness timestamp is stored (row absent, SQL NULL, or empty text),
and whenever the stored text does not parse as an ISO date-time — the
computed age then being 999999 — for every threshold not exceeding
999999; when the text parses, it returns `true` exactly when the
parsed date is at least `refresh_days` days before today. -/
theorem C10_staleness_check (today : Int) (db : UpdatedAtDb) (ocid : String)
    (refresh_days : Int) :
    (_basic_updated_at db ocid = none →
      should_refresh_character today db ocid refresh_days = true) ∧
    (_basic_updated_at db ocid = some "" →
      should_refresh_character today db ocid refresh_days = true) ∧
    (∀ s, _basic_updated_at db ocid = some s → s ≠ "" →
      fromisoformat_date (pyReplace s "Z" "+00:00") = none →
      _days_since today s = 999999 ∧
        (refresh_days ≤ 999999 →
          should_refresh_character today db ocid refresh_days = true)) ∧
    (∀ s d, _basic_updated_at db ocid = some s → s ≠ "" →
      fromisoformat_date (pyReplace s "Z" "+00:00") = some d →
      (should_refresh_character today db ocid refresh_days = true ↔
        refresh_days ≤ today - toordinal d)) := by
  refine ⟨?_, ?_, ?_, ?_⟩
  · intro h; simp [should_refresh_character, h]
  · intro h; simp [should_refresh_character, h]
  · intro s hs hne hparse
    have hd : _days_since today s = 999999 := by simp [_days_since, hparse]
    refine ⟨hd, fun hrd => ?_⟩
    simp only [should_refresh_character, hs, if_neg hne, hd, ge_iff_le,
      decide_eq_true_eq]
    omega
  · intro s d hs hne hparse
    have hd : _days_since today s = today - toordinal d := by simp [_days_since, hparse]
    simp [should_refresh_character, hs, hne, hd, ge_iff_le]

/-- Witness for C10: a timestamp eleven days old against a seven-day
threshold is stale. -/
theorem C10_staleness_check_witness :
    should_refresh_character (toordinal ⟨2025, 10, 12⟩)
        [("ocid1", some "2025-10-01T12:00:00.000000")] "ocid1" 7 = true :=
  ((C10_staleness_check (toordinal ⟨2025, 10, 12⟩)
        [("ocid1", some "2025-10-01T12:00:00.000000")] "ocid1" 7).2.2.2
      "2025-10-01T12:00:00.000000" ⟨2025, 10, 1⟩ rfl (by decide) (by decide)).mpr
    (by decide)

/-- C6 counterexample: a success (200) response whose body parses — to
the empty JSON object — is not returned as data: the client's
`return data if data else None` maps the falsy parsed body to the
absent value. -/
theorem C6_counterexample :
    get_ocid (.response 200 (some (.obj [])) "") = none ∧
      get_ocid (.response 200 (some (.obj [])) "") ≠ some (.obj []) := by
  refine ⟨rfl, fun h => ?_⟩
  rw [show get_ocid (.response 200 (some (.obj [])) "") = none from rfl] at h
  exact Option.noConfusion h

theorem returnTruthy_failsSoft : failsSoft (fun r => returnTruthy (_get_json r)) := by
  refine ⟨?_, ?_, ?_, ?_, ?_⟩
  · intro st body text h; simp [_get_json, returnTruthy, h]
  · intro m; simp [_get_json, returnTruthy]
  · intro text; simp [_get_json, returnTruthy]
  · intro j text h; simp [_get_json, returnTruthy, h]
  · intro j text h; simp [_get_json, returnTruthy, h]

/-- C6 amended: every API-client operation returns the absent value —
and, being a total function of the request outcome, never raises —
when the response status is not 200, when the request raises
(timeout/network error), or when the body fails to decode; a success
response whose parsed body is truthy is returned as data, while a
success response whose body parses to a falsy value (such as the empty
object) also yields the absent value. -/
theorem C6_client_fails_soft :
    failsSoft get_ocid ∧ failsSoft get_basic ∧ (∀ ds, failsSoft (get_stat ds)) ∧
      failsSoft get_guild_id ∧ failsSoft get_guild_basic ∧
      (∀ ds, failsSoft (get_item_equipment ds)) :=
  ⟨returnTruthy_failsSoft, returnTruthy_failsSoft, fun _ => returnTruthy_failsSoft,
    returnTruthy_failsSoft, returnTruthy_failsSoft, fun _ => returnTruthy_failsSoft⟩

/-- Witness for C6: one concrete outcome of each error class across
the six operations, plus a truthy success body returned as data. -/
theorem C6_client_fails_soft_witness :
    get_ocid (.response 404 none "err") = none ∧
      get_basic (.exn "timeout") = none ∧
      get_stat (some "2025-10-01") (.response 200 none "not json") = none ∧
      get_guild_id (.response 200 (some (.str "")) "") = none ∧
      get_guild_basic (.response 200 (some (.obj [("guild_member", .arr [])])) "") =
        some (.obj [("guild_member", .arr [])]) ∧
      get_item_equipment none (.response 503 (some (.obj [])) "busy") = none :=
  ⟨C6_client_fails_soft.1.1 404 none "err" (by decide),
    C6_client_fails_soft.2.1.2.1 "timeout",
    (C6_client_fails_soft.2.2.1 (some "2025-10-01")).2.2.1 "not json",
    C6_client_fails_soft.2.2.2.1.2.2.2.2 (.str "") "" (by decide),
    C6_client_fails_soft.2.2.2.2.1.2.2.2.1 (.obj [("guild_member", .arr [])]) "" (by decide),
    (C6_client_fails_soft.2.2.2.2.2 none).1 503 (some (.obj [])) "busy" (by decide)⟩

/-- C2 counterexample: on the `update_characters` path the upsert sets
`character_level = excluded.character_level` unconditionally, so a
stored level 200 with incoming level 180 ends at 180 — the stored
level decreases. -/
theorem C2_counterexample :
    (upsert_characters_services (some rowStored200) rowIncoming180).character_level =
        some 180 ∧
      rowStored200.character_level = some 200 ∧ ¬ (200 : Int) ≤ 180 :=
  ⟨rfl, rfl, by decide⟩

/-- C2 amended: the monotonic level merge holds on the backfill upsert
(`write_basic_results`): the stored level never decreases, and an
incoming level not above the stored one leaves the stored level
unchanged; the concurrent-refresh upsert (`update_characters`)
instead overwrites the level with the incoming value, so the invariant
does not extend to that path. -/
theorem C2_level_monotonic_backfill (old excluded : CharRow) :
    (old.character_level.getD 0 ≤
        ((upsert_characters_backfill (some old) excluded).character_level).getD 0) ∧
    (∀ v, excluded.character_level = some v → v ≤ old.character_level.getD 0 →
      (upsert_characters_backfill (some old) excluded).character_level =
        some (old.character_level.getD 0)) ∧
    (upsert_characters_services (some old) excluded).character_level =
      excluded.character_level := by
  refine ⟨?_, ?_, rfl⟩
  · show old.character_level.getD 0 ≤
      (Option.getD (match excluded.character_level with
        | some v =>
          if v > old.character_level.getD 0 then some v else some (old.character_level.getD 0)
        | none => some (old.character_level.getD 0)) 0)
    cases excluded.character_level with
    | none => simp
    | some v =>
      by_cases h : v > old.character_level.getD 0
      · simp [h]; omega
      · simp [h]
  · intro v hv hle
    show (match excluded.character_level with
        | some v =>
          if v > old.character_level.getD 0 then some v else some (old.character_level.getD 0)
        | none => some (old.character_level.getD 0)) = some (old.character_level.getD 0)
    rw [hv]
    simp only [if_neg (by omega : ¬ v > old.character_level.getD 0)]

/-- Witness for C2 at the concrete rows: incoming 180 against stored
200 keeps 200 on the backfill path. -/
theorem C2_level_monotonic_backfill_witness :
    (upsert_characters_backfill (some rowStored200) rowIncoming180).character_level =
      some (rowStored200.character_level.getD 0) :=
  (C2_level_monotonic_backfill rowStored200 rowIncoming180).2.1 180 rfl (by decide)

/-- C3 counterexample: on the `update_characters` path the upsert sets
`character_gender = excluded.character_gender` unconditionally, so an
incoming record missing the gender overwrites the stored non-null
gender with NULL. -/
theorem C3_counterexample :
    rowStored200.character_gender = some "男" ∧
      rowIncoming180.character_gender = none ∧
      (upsert_characters_services (some rowStored200) rowIncoming180).character_gender =
        none :=
  ⟨rfl, rfl, rfl⟩

/-- C3 amended: null-coalescing holds on the backfill upsert
(`write_basic_results`): an absent incoming optional field (class,
gender, image, guild name, creation date, exp rate, class level)
leaves the stored value unchanged; the concurrent-refresh upsert
(`update_characters`) instead replaces the whole row with the incoming
values, so the invariant does not extend to that path. -/
theorem C3_null_coalescing_backfill (old excluded : CharRow) :
    (excluded.character_gender = none →
      (upsert_characters_backfill (some old) excluded).character_gender =
        old.character_gender) ∧
    (excluded.character_class = none →
      (upsert_characters_backfill (some old) excluded).character_class =
        old.character_class) ∧
    (excluded.character_exp_rate = none →
      (upsert_characters_backfill (some old) excluded).character_exp_rate =
        old.character_exp_rate) ∧
    (excluded.character_guild_name = none →
      (upsert_characters_backfill (some old) excluded).character_guild_name =
        old.character_guild_name) ∧
    (excluded.character_image = none →
      (upsert_characters_backfill (some old) excluded).character_image =
        old.character_image) ∧
    (excluded.character_date_create = none →
      (upsert_characters_backfill (some old) excluded).character_date_create =
        old.character_date_create) ∧
    (excluded.character_class_level = none →
      (upsert_characters_backfill (some old) excluded).character_class_level =
        old.character_class_level) ∧
    upsert_characters_services (some old) excluded = excluded := by
  refine ⟨?_, ?_, ?_, ?_, ?_, ?_, ?_, rfl⟩ <;>
    · intro h
      simp [upsert_characters_backfill, h, sqlCoalesce]

/-- Witness for C3 at the concrete rows: the absent incoming gender
keeps the stored gender on the backfill path. -/
theorem C3_null_coalescing_backfill_witness :
    (upsert_characters_backfill (some rowStored200) rowIncoming180).character_gender =
      rowStored200.character_gender :=
  (C3_null_coalescing_backfill rowStored200 rowIncoming180).1 rfl

theorem writer_loop_flushes {α ι : Type} (applyI : ι → α → Option α) (db_batch : Nat)
    (rest : List (Option ι)) :
    ∀ (xs : List ι) (committed tx : α) (pending : Nat), (pending = 0 → committed = tx) →
      writer_loop applyI db_batch (xs.map some ++ none :: rest) committed tx pending =
        xs.foldl (tryApply applyI) tx := by
  intro xs
  induction xs with
  | nil =>
    intro c t p hp
    simp only [List.map_nil, List.nil_append, writer_loop]
    by_cases h : p > 0
    · rw [if_pos h]; rfl
    · rw [if_neg h, hp (by omega)]; rfl
  | cons x xs ih =>
    intro c t p hp
    simp only [List.map_cons, List.cons_append, writer_loop]
    simp only [List.append_eq]
    by_cases h : p + 1 ≥ db_batch
    · rw [if_pos h, ih _ _ 0 (fun _ => rfl)]
      rfl
    · rw [if_neg h, ih _ _ (p + 1) (fun hz => absurd hz (by omega))]
      rfl

/-- C9: for every queue that ends in the sentinel, the final committed
state equals the left fold of best-effort intent application over the
intents before the sentinel — items after the sentinel are ignored and
everything applied is committed — and an intent whose application
fails at its position is skipped: the run equals the run of the queue
with that intent removed, every later intent still applied. -/
theorem C9_writer_skips_and_flushes {α ι : Type} (applyI : ι → α → Option α)
    (db_batch : Nat) (db0 : α) (xs : List ι) (rest : List (Option ι)) :
    writer_task applyI db_batch (xs.map some ++ none :: rest) db0 =
      xs.foldl (tryApply applyI) db0 ∧
    (∀ as b cs, xs = as ++ b :: cs →
      applyI b (as.foldl (tryApply applyI) db0) = none →
      writer_task applyI db_batch (xs.map some ++ none :: rest) db0 =
        writer_task applyI db_batch ((as ++ cs).map some ++ none :: rest) db0) := by
  have main : ∀ ys : List ι,
      writer_task applyI db_batch (ys.map some ++ none :: rest) db0 =
        ys.foldl (tryApply applyI) db0 :=
    fun ys => writer_loop_flushes applyI db_batch rest ys db0 db0 0 (fun _ => rfl)
  refine ⟨main xs, ?_⟩
  intro as b cs hxs hfail
  rw [main xs, main (as ++ cs), hxs, List.foldl_append, List.foldl_append, List.foldl_cons]
  have hskip : tryApply applyI (as.foldl (tryApply applyI) db0) b =
      as.foldl (tryApply applyI) db0 := by
    simp [tryApply, hfail]
  rw [hskip]

/-- Witness for C9: the queue `[1, 0, 2]` + sentinel commits `[1, 2]`
— the failing middle intent is skipped, the later intent still
applies, and the run equals the run without the failing intent. -/
theorem C9_writer_skips_and_flushes_witness :
    writer_task exApply 2 ([1, 0, 2].map some ++ none :: []) ([] : List Nat) =
        [1, 0, 2].foldl (tryApply exApply) [] ∧
      writer_task exApply 2 ([1, 0, 2].map some ++ none :: []) ([] : List Nat) =
        writer_task exApply 2 (([1] ++ [2]).map some ++ none :: []) ([] : List Nat) :=
  ⟨(C9_writer_skips_and_flushes exApply 2 [] [1, 0, 2] []).1,
    (C9_writer_skips_and_flushes exApply 2 [] [1, 0, 2] []).2 [1] 0 [2] rfl rfl⟩

/-- C7: a record is permanent exactly when its unblock text has the
`YYYY/M/D` shape (the source's regex performs no calendar range check)
with year ≥ 2079; it is temporary exactly when both dates parse as
calendar dates, the span is between 1 and 7 days inclusive, and the
unblock year is below 2079; unparsable or empty dates fall in neither
class; and the three boundary examples of the specification hold. -/
theorem C7_classification (b u : String) :
    (is_7day_lock b u = true ↔
      ∃ bd ud, parse_ymd b = some bd ∧ parse_ymd u = some ud ∧
        1 ≤ toordinal ud - toordinal bd ∧ toordinal ud - toordinal bd ≤ 7 ∧
        ud.year < 2079) ∧
    (_is_permanent_unblock_date u = true ↔
      ∃ y mo d, parseYmdLoose (pyStrip u).data = some (y, mo, d) ∧ 2079 ≤ y) ∧
    (parse_ymd u = none → parseYmdLoose (pyStrip u).data = none →
      is_7day_lock b u = false ∧ _is_permanent_unblock_date u = false) ∧
    (is_7day_lock "2025/01/01" "2025/01/08" = true ∧
      _is_permanent_unblock_date "2079/01/01" = true ∧
      is_7day_lock "2025/01/01" "2025/03/01" = false ∧
      _is_permanent_unblock_date "2025/03/01" = false ∧
      _is_permanent_unblock_date "" = false ∧
      is_7day_lock "" "2025/01/08" = false) := by
  refine ⟨?_, ?_, ?_, ?_⟩
  · rcases hb : parse_ymd b with _ | bd <;> rcases hu : parse_ymd u with _ | ud <;>
      simp [is_7day_lock, hb, hu, and_assoc]
    · omega
  · by_cases hs : pyStrip u = ""
    · constructor
      · intro hperm
        exfalso
        unfold _is_permanent_unblock_date at hperm
        rw [hs] at hperm
        simp at hperm
      · rintro ⟨y, mo, d, hp, _⟩
        rw [hs] at hp
        have h0 : parseYmdLoose ("".data) = none := rfl
        rw [h0] at hp
        exact Option.noConfusion hp
    · rcases hp : parseYmdLoose (pyStrip u).data with _ | ⟨y, mo, d⟩ <;>
        simp [_is_permanent_unblock_date, hs, hp]
  · intro hpu hpl
    constructor
    · rcases hb : parse_ymd b with _ | bd <;> simp [is_7day_lock, hb, hpu]
    · by_cases hs : pyStrip u = "" <;> simp [_is_permanent_unblock_date, hs, hpl]
  · exact ⟨by decide, by decide, by decide, by decide, by decide, by decide⟩

/-- Witness for C7: an unparsable unblock text is neither temporary
nor permanent. -/
theorem C7_classification_witness :
    is_7day_lock "2025/01/01" "not a date" = false ∧
      _is_permanent_unblock_date "not a date" = false :=
  (C7_classification "2025/01/01" "not a date").2.2.1 (by decide) (by decide)

/-- C4 counterexample: with a persisted cursor at day 10, a configured
first start date of day 100 and latest available day 205, the run
starts at cursor + 1 = 11 — processing days before the configured
first start date — not at max(first start, cursor + 1) = 100. -/
theorem C4_counterexample :
    (sync_blacklist_incremental noRows ⟨206, 21600000000⟩ 100 (some 10) true).ran = true ∧
      (sync_blacklist_incremental noRows ⟨206, 21600000000⟩ 100 (some 10) true).start =
        some 11 ∧
      (cursorWrites
          (sync_blacklist_incremental noRows ⟨206, 21600000000⟩ 100 (some 10) true).trace).head? =
        some 11 ∧
      (11 : Int) ≠ max 100 (10 + 1) :=
  ⟨rfl, rfl, rfl, by decide⟩

theorem sync_days_eq (fetchRows : Int → List PyDict) (po : Bool) :
    ∀ (n : Nat) (start : Int),
      sync_days fetchRows po start n =
        ((List.range n).map (fun (i : Nat) => dayEvents fetchRows po (start + (i : Int)))).flatten := by
  intro n
  induction n with
  | zero => intro start; rfl
  | succ n ih =>
    intro start
    rw [List.range_succ_eq_map]
    simp only [List.map_cons, List.map_map, List.flatten_cons, sync_days]
    rw [ih (start + 1)]
    congr 1
    · simp
    · congr 1
      apply List.map_congr_left
      intro i _
      simp only [Function.comp_apply]
      congr 1
      push_cast
      ring

theorem cursorWrites_dayEvents (fetchRows : Int → List PyDict) (po : Bool) (d : Int)
    (rest : List SyncEvent) :
    cursorWrites (dayEvents fetchRows po d ++ rest) = d :: cursorWrites rest := by
  unfold dayEvents
  by_cases h :
      (if po then extract_permanent_names (fetchRows d) else extract_names (fetchRows d)).isEmpty <;>
    simp [h, cursorWrites]

theorem cursorWrites_sync_days (fetchRows : Int → List PyDict) (po : Bool) :
    ∀ (n : Nat) (start : Int),
      cursorWrites (sync_days fetchRows po start n) =
        (List.range n).map (fun (i : Nat) => start + (i : Int)) := by
  intro n
  induction n with
  | zero => intro start; rfl
  | succ n ih =>
    intro start
    rw [List.range_succ_eq_map]
    simp only [List.map_cons, List.map_map, sync_days]
    rw [cursorWrites_dayEvents, ih (start + 1)]
    congr 1
    · simp
    · apply List.map_congr_left
      intro i _
      simp only [Function.comp_apply]
      push_cast
      ring

/-- C4 amended: the run processes days in ascending order starting at
the persisted cursor + 1 when a cursor exists — even when that is
earlier than the configured first start date — and at the configured
first start date otherwise, up through the latest available day; the
trace is one block per day, each block ending with the cursor persist
for exactly that day before the next day begins, so the persisted
cursor values are the processed days in strictly ascending order;
when the latest available day precedes the configured first start
date, or the computed start exceeds the latest available day, the run
reports a not-ran "nothing to do" result with an empty trace, distinct
from the result carrying the processed-day count. -/
theorem C4_sync_cursor_discipline (fetchRows : Int → List PyDict) (now : WallClock)
    (first_start : Int) (last_sync : Option Int) (po : Bool) :
    (_latest_available_block_date now < first_start →
      sync_blacklist_incremental fetchRows now first_start last_sync po =
        { ran := false, reason := some "latest < first_start_date", start := none,
          latest := none, total_days := none, trace := [] }) ∧
    (first_start ≤ _latest_available_block_date now →
      _latest_available_block_date now < syncStartOf first_start last_sync →
      sync_blacklist_incremental fetchRows now first_start last_sync po =
        { ran := false, reason := some "up-to-date",
          start := some (syncStartOf first_start last_sync),
          latest := some (_latest_available_block_date now), total_days := none,
          trace := [] }) ∧
    (first_start ≤ _latest_available_block_date now →
      syncStartOf first_start last_sync ≤ _latest_available_block_date now →
      (sync_blacklist_incremental fetchRows now first_start last_sync po).ran = true ∧
      (sync_blacklist_incremental fetchRows now first_start last_sync po).total_days =
        some (_latest_available_block_date now - syncStartOf first_start last_sync + 1) ∧
      (sync_blacklist_incremental fetchRows now first_start last_sync po).trace =
        ((intRange (syncStartOf first_start last_sync)
            (_latest_available_block_date now)).map (dayEvents fetchRows po)).flatten ∧
      cursorWrites (sync_blacklist_incremental fetchRows now first_start last_sync po).trace =
        intRange (syncStartOf first_start last_sync) (_latest_available_block_date now) ∧
      List.Sorted (· < ·)
        (cursorWrites
          (sync_blacklist_incremental fetchRows now first_start last_sync po).trace)) := by
  refine ⟨?_, ?_, ?_⟩
  · intro h
    simp only [sync_blacklist_incremental]
    rw [if_pos h]
  · intro h1 h2
    simp only [sync_blacklist_incremental]
    rw [if_neg (by omega), if_pos (by omega)]
  · intro h1 h2
    have hunf : sync_blacklist_incremental fetchRows now first_start last_sync po =
        { ran := true, reason := none, start := some (syncStartOf first_start last_sync),
          latest := some (_latest_available_block_date now),
          total_days :=
            some (_latest_available_block_date now - syncStartOf first_start last_sync + 1),
          trace := sync_days fetchRows po (syncStartOf first_start last_sync)
            (_latest_available_block_date now - syncStartOf first_start last_sync + 1).toNat } := by
      simp only [sync_blacklist_incremental]
      rw [if_neg (by omega), if_neg (by omega)]
    rw [hunf]
    refine ⟨rfl, rfl, ?_, ?_, ?_⟩
    · rw [sync_days_eq]
      simp only [intRange, List.map_map]
      rfl
    · rw [cursorWrites_sync_days]
      rfl
    · rw [cursorWrites_sync_days]
      refine List.Pairwise.map _ ?_ (List.pairwise_lt_range _)
      intro a b hab
      omega

/-- Witness for C4: cursor 199, first start 100, latest 205 — the run
processes and persists exactly days 200 through 205 in order. -/
theorem C4_sync_cursor_discipline_witness :
    cursorWrites
        (sync_blacklist_incremental noRows ⟨206, 21600000000⟩ 100 (some 199) true).trace =
      intRange (syncStartOf 100 (some 199)) (_latest_available_block_date ⟨206, 21600000000⟩) :=
  ((C4_sync_cursor_discipline noRows ⟨206, 21600000000⟩ 100 (some 199) true).2.2
    (by decide) (by decide)).2.2.2.1

theorem dGetOpt_dSet (d : PyDict) (k k' : String) (v : PyVal) :
    dGetOpt (dSet d k v) k' = if k = k' then some v else dGetOpt d k' := by
  induction d with
  | nil => simp [dSet, dGetOpt]
  | cons p rest ih =>
    obtain ⟨k0, v0⟩ := p
    by_cases h0 : k0 = k
    · subst h0
      simp only [dSet, if_pos rfl, dGetOpt]
      by_cases h1 : k0 = k' <;> simp [h1]
    · simp only [dSet, if_neg h0, dGetOpt, ih]
      by_cases h1 : k0 = k' <;> by_cases h2 : k = k' <;> simp [h1, h2]
      exact absurd (h2.trans h1.symm) (fun h => h0 h.symm)

theorem dKeys_dSet (d : PyDict) (k : String) (v : PyVal) :
    dKeys (dSet d k v) = if k ∈ dKeys d then dKeys d else dKeys d ++ [k] := by
  induction d with
  | nil => simp [dSet, dKeys]
  | cons p rest ih =>
    obtain ⟨k0, v0⟩ := p
    by_cases h0 : k0 = k
    · subst h0
      simp [dSet, dKeys]
    · simp only [dSet, if_neg h0, dKeys, List.map_cons] at ih ⊢
      rw [ih]
      have hne : ¬ k = k0 := fun h => h0 h.symm
      by_cases h1 : k ∈ rest.map Prod.fst <;>
        simp [h1, List.mem_cons, hne]

theorem nodup_dKeys_dSet {d : PyDict} (k : String) (v : PyVal)
    (h : (dKeys d).Nodup) : (dKeys (dSet d k v)).Nodup := by
  rw [dKeys_dSet]
  by_cases hm : k ∈ dKeys d
  · rw [if_pos hm]; exact h
  · rw [if_neg hm]
    simp [List.nodup_append, h, hm]

theorem dGetOpt_eq_none_iff (m : PyDict) (k : String) :
    dGetOpt m k = none ↔ k ∉ dKeys m := by
  induction m with
  | nil => simp [dGetOpt, dKeys]
  | cons p rest ih =>
    obtain ⟨k0, v0⟩ := p
    by_cases h0 : k0 = k
    · subst h0
      simp [dGetOpt, dKeys]
    · have hne : ¬ k = k0 := fun h => h0 h.symm
      simp only [dGetOpt, if_neg h0, ih, dKeys, List.map_cons, List.mem_cons]
      simp [hne]

theorem addItems_cons (m : PyDict) (it : PyVal) (its : List PyVal)
    (h : wfItem it = true) :
    addItems m (it :: its) = addItems (dSet m (itemKey it) it) its := by
  cases it with
  | obj f =>
    simp only [wfItem, decide_eq_true_eq] at h
    simp [addItems, itemKey, h]
  | null => simp [wfItem] at h
  | bool b => simp [wfItem] at h
  | num n => simp [wfItem] at h
  | str s => simp [wfItem] at h
  | arr l => simp [wfItem] at h

theorem addItems_lookup_notmem (its : List PyVal) :
    ∀ (m : PyDict) (k : String), (∀ x ∈ its, wfItem x = true) →
      (∀ x ∈ its, itemKey x ≠ k) → dGetOpt (addItems m its) k = dGetOpt m k := by
  induction its with
  | nil => intro m k _ _; rfl
  | cons it rest ih =>
    intro m k hwf hk
    rw [addItems_cons m it rest (hwf it (List.mem_cons_self _ _))]
    rw [ih _ k (fun x hx => hwf x (List.mem_cons_of_mem _ hx))
      (fun x hx => hk x (List.mem_cons_of_mem _ hx))]
    rw [dGetOpt_dSet, if_neg (hk it (List.mem_cons_self _ _))]

theorem addItems_lookup_mem (its : List PyVal) :
    ∀ (m : PyDict) (k : String) (it : PyVal), (∀ x ∈ its, wfItem x = true) →
      (its.map itemKey).Nodup → it ∈ its → itemKey it = k →
      dGetOpt (addItems m its) k = some it := by
  induction its with
  | nil => intro m k it _ _ h; exact absurd h (List.not_mem_nil it)
  | cons x rest ih =>
    intro m k it hwf hnd hmem hkey
    rw [addItems_cons m x rest (hwf x (List.mem_cons_self _ _))]
    rcases List.mem_cons.mp hmem with rfl | hmem'
    · have hk : ∀ y ∈ rest, itemKey y ≠ k := by
        intro y hy hyk
        simp only [List.map_cons, List.nodup_cons] at hnd
        apply hnd.1
        rw [hkey, ← hyk]
        exact List.mem_map_of_mem itemKey hy
      rw [addItems_lookup_notmem rest _ k
        (fun y hy => hwf y (List.mem_cons_of_mem _ hy)) hk]
      rw [dGetOpt_dSet, if_pos hkey]
    · exact ih _ k it (fun y hy => hwf y (List.mem_cons_of_mem _ hy))
        (List.Nodup.of_cons (by simpa using hnd)) hmem' hkey

theorem addItems_lookup_inv (its : List PyVal) :
    ∀ (m : PyDict) (k : String) (v : PyVal), (∀ x ∈ its, wfItem x = true) →
      dGetOpt (addItems m its) k = some v →
      (v ∈ its ∧ itemKey v = k) ∨ dGetOpt m k = some v := by
  induction its with
  | nil => intro m k v _ h; exact Or.inr h
  | cons x rest ih =>
    intro m k v hwf h
    rw [addItems_cons m x rest (hwf x (List.mem_cons_self _ _))] at h
    rcases ih _ k v (fun y hy => hwf y (List.mem_cons_of_mem _ hy)) h with ⟨hm, hk⟩ | hrec
    · exact Or.inl ⟨List.mem_cons_of_mem _ hm, hk⟩
    · rw [dGetOpt_dSet] at hrec
      by_cases hx : itemKey x = k
      · rw [if_pos hx] at hrec
        obtain rfl : x = v := Option.some.inj hrec
        exact Or.inl ⟨List.mem_cons_self _ _, hx⟩
      · rw [if_neg hx] at hrec
        exact Or.inr hrec

theorem addItems_nodup_keys (its : List PyVal) :
    ∀ (m : PyDict), (∀ x ∈ its, wfItem x = true) → (dKeys m).Nodup →
      (dKeys (addItems m its)).Nodup := by
  induction its with
  | nil => intro m _ h; exact h
  | cons x rest ih =>
    intro m hwf h
    rw [addItems_cons m x rest (hwf x (List.mem_cons_self _ _))]
    exact ih _ (fun y hy => hwf y (List.mem_cons_of_mem _ hy)) (nodup_dKeys_dSet _ _ h)

theorem candR_iff (a b : PresetCandidate) :
    candR a b ↔
      a.cnt < b.cnt ∨
        (a.cnt = b.cnt ∧ (a.flag < b.flag ∨ (a.flag = b.flag ∧ a.no ≤ b.no))) := by
  simp [candR, candLe]

theorem sorted_head_rel {α : Type} {r : α → α → Prop} {b : α} {t : List α}
    (hs : List.Sorted r (b :: t)) (hb : r b b) : ∀ x ∈ b :: t, r b x := by
  intro x hx
  rcases List.mem_cons.mp hx with h | h
  · exact h ▸ hb
  · exact List.rel_of_sorted_cons hs x h

theorem mem_candOf {e : PyDict} {nk : Nat × String} {c : PresetCandidate} :
    c ∈ candOf e nk ↔
      ∃ l, dGet e nk.2 = .arr l ∧ l ≠ [] ∧
        c = { cnt := count_drop_rate_mentions
                (dumps (.arr (_merge_items (base_items_of e) l)))
              flag := if nk.1 = 2 then 0 else 1
              no := nk.1
              items := _merge_items (base_items_of e) l } := by
  unfold candOf
  cases h : dGet e nk.2 with
  | arr l =>
    by_cases hl : l.isEmpty
    · have hnil : l = [] := by
        cases l with
        | nil => rfl
        | cons a as => simp [List.isEmpty] at hl
      subst hnil
      simp
    · have hne : l ≠ [] := by
        cases l with
        | nil => simp [List.isEmpty] at hl
        | cons a as => exact List.cons_ne_nil a as
      simp only [hl, Bool.false_eq_true, if_false, List.mem_singleton]
      constructor
      · intro hc
        exact ⟨l, rfl, hne, hc⟩
      · rintro ⟨l', hll', _, hc⟩
        have : l = l' := by injection hll'
        subst this
        exact hc
  | null => simp
  | bool b => simp
  | num n => simp
  | str s => simp
  | obj f => simp

theorem mem_preset_candidates {e : PyDict} {c : PresetCandidate} :
    c ∈ preset_candidates e ↔ ∃ nk ∈ preset_keys, c ∈ candOf e nk := by
  simp only [preset_candidates, List.mem_flatten, List.mem_map]
  constructor
  · rintro ⟨l, ⟨nk, hnk, rfl⟩, hc⟩
    exact ⟨nk, hnk, hc⟩
  · rintro ⟨nk, hnk, hc⟩
    exact ⟨candOf e nk, ⟨nk, hnk, rfl⟩, hc⟩

theorem candidate_fields {e : PyDict} {c : PresetCandidate}
    (hc : c ∈ preset_candidates e) :
    c.flag = (if c.no = 2 then 0 else 1) ∧
      c.cnt = count_drop_rate_mentions (dumps (.arr c.items)) ∧
      (∃ l, dGet e (preset_key_name c.no) = .arr l ∧ l ≠ [] ∧
        c.items = _merge_items (base_items_of e) l) := by
  rw [mem_preset_candidates] at hc
  obtain ⟨nk, hnk, hmem⟩ := hc
  rw [mem_candOf] at hmem
  obtain ⟨l, hget, hne, rfl⟩ := hmem
  have hkey : nk.2 = preset_key_name nk.1 := by
    have : ∀ p ∈ preset_keys, p.2 = preset_key_name p.1 := by decide
    exact this nk hnk
  exact ⟨rfl, rfl, ⟨l, hkey ▸ hget, hne, rfl⟩⟩

theorem preset_candidates_of_empty {e : PyDict} (h : e.isEmpty = true) :
    preset_candidates e = [] := by
  cases e with
  | nil => rfl
  | cons p rest => simp [List.isEmpty] at h

/-- C1: when at least one of the up-to-three preset candidate lists is
a non-empty list, the selector rewrites the record (preset keys
dropped) around a winning candidate: its items are the merge of the
base list with that preset's list, its cost is the number of marker
occurrences in the serialized merged items, no candidate beats it on
the lexicographic (cost, prefer-preset-2, ascending-ordinal) key, and
the result's `preset_no` / `item_equipment` hold the winning number
and items; with no non-empty candidate list the record passes through
unchanged. -/
theorem C1_snapshot_selector (e : PyDict) :
    ((preset_candidates e).isEmpty = true →
      pick_best_preset_by_lowest_drop_rate e = e) ∧
    ((preset_candidates e).isEmpty = false →
      ∃ best ∈ preset_candidates e,
        best.cnt = count_drop_rate_mentions (dumps (.arr best.items)) ∧
        (∃ l, dGet e (preset_key_name best.no) = .arr l ∧ l ≠ [] ∧
          best.items = _merge_items (base_items_of e) l) ∧
        (∀ c ∈ preset_candidates e,
          best.cnt < c.cnt ∨
            (best.cnt = c.cnt ∧ (best.no = 2 ∨ (c.no ≠ 2 ∧ best.no ≤ c.no)))) ∧
        pick_best_preset_by_lowest_drop_rate e =
          dSet (dSet (preset_keys.foldl (fun d nk => dPop d nk.2) e) "preset_no"
            (.num best.no)) "item_equipment" (.arr best.items) ∧
        dGet (pick_best_preset_by_lowest_drop_rate e) "preset_no" = .num best.no ∧
        dGet (pick_best_preset_by_lowest_drop_rate e) "item_equipment" =
          .arr best.items) := by
  constructor
  · intro h
    have hc : preset_candidates e = [] := by
      cases hcand : preset_candidates e with
      | nil => rfl
      | cons a as => rw [hcand] at h; simp [List.isEmpty] at h
    unfold pick_best_preset_by_lowest_drop_rate
    rw [hc]
    by_cases he : e.isEmpty <;> simp [he]
  · intro h
    have hene : e.isEmpty = false := by
      cases he : e.isEmpty
      · rfl
      · rw [preset_candidates_of_empty he] at h
        simp [List.isEmpty] at h
    have hnil : List.insertionSort candR (preset_candidates e) ≠ [] := by
      intro hn
      have hlen := List.Perm.length_eq (List.perm_insertionSort candR (preset_candidates e))
      rw [hn] at hlen
      cases hcand : preset_candidates e with
      | nil => rw [hcand] at h; simp [List.isEmpty] at h
      | cons a as => rw [hcand] at hlen; simp at hlen
    obtain ⟨best, t, hsort⟩ := List.exists_cons_of_ne_nil hnil
    have hmem : best ∈ preset_candidates e := by
      have hm : best ∈ List.insertionSort candR (preset_candidates e) := by
        rw [hsort]; exact List.mem_cons_self _ _
      simpa [List.mem_insertionSort] using hm
    have hminR : ∀ c ∈ preset_candidates e, candR best c := by
      intro c hc
      have hc' : c ∈ best :: t := by
        rw [← hsort]
        simpa [List.mem_insertionSort] using hc
      have hsorted : List.Sorted candR (best :: t) := by
        rw [← hsort]
        exact List.sorted_insertionSort candR (preset_candidates e)
      exact sorted_head_rel hsorted (candR_refl best) c hc'
    have hpick : pick_best_preset_by_lowest_drop_rate e =
        dSet (dSet (preset_keys.foldl (fun d nk => dPop d nk.2) e) "preset_no"
          (.num best.no)) "item_equipment" (.arr best.items) := by
      unfold pick_best_preset_by_lowest_drop_rate
      simp only [hene, Bool.false_eq_true, if_false]
      rw [hsort]
    obtain ⟨hflag, hcnt, hmrg⟩ := candidate_fields hmem
    refine ⟨best, hmem, hcnt, hmrg, ?_, hpick, ?_, ?_⟩
    · intro c hc
      obtain ⟨hflagc, _, _⟩ := candidate_fields hc
      rcases (candR_iff best c).mp (hminR c hc) with h1 | ⟨he1, h2⟩
      · exact Or.inl h1
      · refine Or.inr ⟨he1, ?_⟩
        by_cases hb2 : best.no = 2
        · exact Or.inl hb2
        · refine Or.inr ⟨?_, ?_⟩
          · intro hc2
            rw [hflag, hflagc, if_neg hb2, if_pos hc2] at h2
            rcases h2 with h2 | ⟨h2, _⟩ <;> omega
          · rcases h2 with h2 | ⟨_, h3⟩
            · exfalso
              rw [hflag, hflagc, if_neg hb2] at h2
              split_ifs at h2 <;> omega
            · exact h3
    · rw [hpick]
      simp [dGet, dGetOpt_dSet]
    · rw [hpick]
      simp [dGet, dGetOpt_dSet]

/-- Witness for C1 at the concrete record. -/
theorem C1_snapshot_selector_witness :
    ∃ best ∈ preset_candidates equipEx,
      best.cnt = count_drop_rate_mentions (dumps (.arr best.items)) ∧
      (∃ l, dGet equipEx (preset_key_name best.no) = .arr l ∧ l ≠ [] ∧
        best.items = _merge_items (base_items_of equipEx) l) ∧
      (∀ c ∈ preset_candidates equipEx,
        best.cnt < c.cnt ∨
          (best.cnt = c.cnt ∧ (best.no = 2 ∨ (c.no ≠ 2 ∧ best.no ≤ c.no)))) ∧
      pick_best_preset_by_lowest_drop_rate equipEx =
        dSet (dSet (preset_keys.foldl (fun d nk => dPop d nk.2) equipEx) "preset_no"
          (.num best.no)) "item_equipment" (.arr best.items) ∧
      dGet (pick_best_preset_by_lowest_drop_rate equipEx) "preset_no" = .num best.no ∧
      dGet (pick_best_preset_by_lowest_drop_rate equipEx) "item_equipment" =
        .arr best.items :=
  (C1_snapshot_selector equipEx).2 (by decide)

theorem mergedDict_lookup_preset {base preset : List PyVal}
    (hp : ∀ x ∈ preset, wfItem x = true) (hpnd : (preset.map itemKey).Nodup)
    {it : PyVal} (hit : it ∈ preset) :
    dGetOpt (mergedDict base preset) (itemKey it) = some it :=
  addItems_lookup_mem preset _ _ it hp hpnd hit rfl

theorem mergedDict_lookup_base {base preset : List PyVal}
    (hb : ∀ x ∈ base, wfItem x = true) (hp : ∀ x ∈ preset, wfItem x = true)
    (hbnd : (base.map itemKey).Nodup) {it : PyVal} (hit : it ∈ base)
    (hnot : itemKey it ∉ preset.map itemKey) :
    dGetOpt (mergedDict base preset) (itemKey it) = some it := by
  unfold mergedDict
  rw [addItems_lookup_notmem preset _ _ hp
    (fun x hx hk => hnot (by rw [← hk]; exact List.mem_map_of_mem itemKey hx))]
  exact addItems_lookup_mem base _ _ it hb hbnd hit rfl

theorem mergedDict_lookup_none {base preset : List PyVal}
    (hb : ∀ x ∈ base, wfItem x = true) (hp : ∀ x ∈ preset, wfItem x = true)
    {k : String} (h1 : k ∉ base.map itemKey) (h2 : k ∉ preset.map itemKey) :
    dGetOpt (mergedDict base preset) k = none := by
  unfold mergedDict
  rw [addItems_lookup_notmem preset _ _ hp
    (fun x hx hk => h2 (by rw [← hk]; exact List.mem_map_of_mem itemKey hx))]
  rw [addItems_lookup_notmem base _ _ hb
    (fun x hx hk => h1 (by rw [← hk]; exact List.mem_map_of_mem itemKey hx))]
  rfl

theorem mergedDict_lookup_inv {base preset : List PyVal}
    (hb : ∀ x ∈ base, wfItem x = true) (hp : ∀ x ∈ preset, wfItem x = true)
    {k : String} {v : PyVal} (h : dGetOpt (mergedDict base preset) k = some v) :
    itemKey v = k ∧ (v ∈ preset ∨ v ∈ base) := by
  unfold mergedDict at h
  rcases addItems_lookup_inv preset _ _ _ hp h with ⟨hm, hk⟩ | h2
  · exact ⟨hk, Or.inl hm⟩
  · rcases addItems_lookup_inv base _ _ _ hb h2 with ⟨hm, hk⟩ | h3
    · exact ⟨hk, Or.inr hm⟩
    · exact absurd h3 (by simp [dGetOpt])

theorem mergedDict_nodup {base preset : List PyVal}
    (hb : ∀ x ∈ base, wfItem x = true) (hp : ∀ x ∈ preset, wfItem x = true) :
    (dKeys (mergedDict base preset)).Nodup := by
  unfold mergedDict
  exact addItems_nodup_keys preset _ hp
    (addItems_nodup_keys base _ hb (by simp [dKeys]))

theorem mem_dKeys_iff (m : PyDict) (k : String) :
    k ∈ dKeys m ↔ ∃ v, dGetOpt m k = some v := by
  constructor
  · intro hk
    cases hv : dGetOpt m k with
    | none => exact absurd hk ((dGetOpt_eq_none_iff m k).mp hv)
    | some v => exact ⟨v, rfl⟩
  · rintro ⟨v, hv⟩
    by_contra hk
    rw [(dGetOpt_eq_none_iff m k).mpr hk] at hv
    exact Option.noConfusion hv

theorem mem_merge_items_iff {base preset : List PyVal} {it : PyVal} :
    it ∈ _merge_items base preset ↔
      ∃ k, dGetOpt (mergedDict base preset) k = some it := by
  unfold _merge_items
  simp only [List.mem_map, List.mem_insertionSort]
  constructor
  · rintro ⟨k, hk, rfl⟩
    obtain ⟨v, hv⟩ := (mem_dKeys_iff _ _).mp hk
    exact ⟨k, by simp [dGet, hv]⟩
  · rintro ⟨k, hk⟩
    refine ⟨k, (mem_dKeys_iff _ _).mpr ⟨it, hk⟩, ?_⟩
    simp [dGet, hk]

/-- C5: under well-formed inputs (each item a dict with a non-empty
slot key, keys distinct within each list), the merge output is exactly
the slot-keyed union — every candidate item appears, a base item
appears exactly when its slot key is not among the candidate's, and
nothing else appears; its slot keys are distinct and sorted ascending;
and the output is invariant under any reordering of either input
list. -/
theorem C5_merge_items (base preset : List PyVal)
    (hb : ∀ x ∈ base, wfItem x = true)
    (hp : ∀ x ∈ preset, wfItem x = true)
    (hbnd : (base.map itemKey).Nodup)
    (hpnd : (preset.map itemKey).Nodup) :
    (∀ it ∈ preset, it ∈ _merge_items base preset) ∧
    (∀ it ∈ base, itemKey it ∉ preset.map itemKey → it ∈ _merge_items base preset) ∧
    (∀ it ∈ _merge_items base preset,
      it ∈ preset ∨ (it ∈ base ∧ itemKey it ∉ preset.map itemKey)) ∧
    ((_merge_items base preset).map itemKey).Nodup ∧
    List.Sorted pyStrR ((_merge_items base preset).map itemKey) ∧
    (∀ base' preset', base'.Perm base → preset'.Perm preset →
      _merge_items base' preset' = _merge_items base preset) := by
  have hkeys : (_merge_items base preset).map itemKey =
      List.insertionSort pyStrR (dKeys (mergedDict base preset)) := by
    unfold _merge_items
    rw [List.map_map]
    have hcongr : ∀ k ∈ List.insertionSort pyStrR (dKeys (mergedDict base preset)),
        (itemKey ∘ fun k => dGet (mergedDict base preset) k) k = id k := by
      intro k hk
      rw [List.mem_insertionSort] at hk
      obtain ⟨v, hv⟩ := (mem_dKeys_iff _ _).mp hk
      simp only [Function.comp_apply, dGet, hv, Option.getD_some, id_eq]
      exact (mergedDict_lookup_inv hb hp hv).1
    rw [List.map_congr_left hcongr, List.map_id]
  refine ⟨?_, ?_, ?_, ?_, ?_, ?_⟩
  · intro it hit
    exact mem_merge_items_iff.mpr ⟨itemKey it, mergedDict_lookup_preset hp hpnd hit⟩
  · intro it hit hnot
    exact mem_merge_items_iff.mpr ⟨itemKey it, mergedDict_lookup_base hb hp hbnd hit hnot⟩
  · intro it hit
    obtain ⟨k, hk⟩ := mem_merge_items_iff.mp hit
    obtain ⟨hkey, hmem⟩ := mergedDict_lookup_inv hb hp hk
    by_cases hm : itemKey it ∈ preset.map itemKey
    · obtain ⟨y, hy, hyk⟩ := List.mem_map.mp hm
      have h1 : dGetOpt (mergedDict base preset) (itemKey y) = some y :=
        mergedDict_lookup_preset hp hpnd hy
      rw [hyk, hkey, hk] at h1
      exact Or.inl (Option.some.inj h1 ▸ hy)
    · rcases hmem with hmp | hmb
      · exact Or.inl hmp
      · exact Or.inr ⟨hmb, hm⟩
  · rw [hkeys]
    exact ((List.perm_insertionSort pyStrR _).nodup_iff).mpr (mergedDict_nodup hb hp)
  · rw [hkeys]
    exact List.sorted_insertionSort pyStrR _
  · intro base' preset' hbp hpp
    have hb' : ∀ x ∈ base', wfItem x = true := fun x hx => hb x (hbp.mem_iff.mp hx)
    have hp' : ∀ x ∈ preset', wfItem x = true := fun x hx => hp x (hpp.mem_iff.mp hx)
    have hbnd' : (base'.map itemKey).Nodup := ((hbp.map itemKey).nodup_iff).mpr hbnd
    have hpnd' : (preset'.map itemKey).Nodup := ((hpp.map itemKey).nodup_iff).mpr hpnd
    have hagree : ∀ k, dGetOpt (mergedDict base' preset') k =
        dGetOpt (mergedDict base preset) k := by
      intro k
      by_cases hkp : k ∈ preset.map itemKey
      · obtain ⟨y, hy, hyk⟩ := List.mem_map.mp hkp
        subst hyk
        rw [mergedDict_lookup_preset hp' hpnd' (hpp.mem_iff.mpr hy)]
        rw [mergedDict_lookup_preset hp hpnd hy]
      · by_cases hkb : k ∈ base.map itemKey
        · obtain ⟨y, hy, hyk⟩ := List.mem_map.mp hkb
          subst hyk
          rw [mergedDict_lookup_base hb' hp' hbnd' (hbp.mem_iff.mpr hy)
            (fun hm => hkp ((hpp.map itemKey).mem_iff.mp hm))]
          rw [mergedDict_lookup_base hb hp hbnd hy hkp]
        · rw [mergedDict_lookup_none hb' hp'
            (fun hm => hkb ((hbp.map itemKey).mem_iff.mp hm))
            (fun hm => hkp ((hpp.map itemKey).mem_iff.mp hm))]
          rw [mergedDict_lookup_none hb hp hkb hkp]
    have hkeysperm : (dKeys (mergedDict base' preset')).Perm (dKeys (mergedDict base preset)) := by
      rw [List.perm_ext_iff_of_nodup (mergedDict_nodup hb' hp') (mergedDict_nodup hb hp)]
      intro a
      rw [mem_dKeys_iff, mem_dKeys_iff]
      constructor <;> rintro ⟨v, hv⟩
      · exact ⟨v, by rw [← hagree a]; exact hv⟩
      · exact ⟨v, by rw [hagree a]; exact hv⟩
    have hsortedeq : List.insertionSort pyStrR (dKeys (mergedDict base' preset')) =
        List.insertionSort pyStrR (dKeys (mergedDict base preset)) :=
      List.eq_of_perm_of_sorted
        (((List.perm_insertionSort pyStrR _).trans hkeysperm).trans
          (List.perm_insertionSort pyStrR _).symm)
        (List.sorted_insertionSort pyStrR _) (List.sorted_insertionSort pyStrR _)
    unfold _merge_items
    rw [hsortedeq]
    apply List.map_congr_left
    intro k _
    simp [dGet, hagree k]

/-- Witness for C5: the merge of the reversed lists equals the merge
of the originals, and the original merge is sorted with distinct
keys. -/
theorem C5_merge_items_witness :
    _merge_items [itemEx "帽子" "攻擊力 : +9%", itemEx "戒指" "道具掉落率 : +20%"]
        [itemEx "帽子" "爆擊率 : +8%", itemEx "武器" "攻擊力 : +12%"] =
      _merge_items baseEx presetEx ∧
    List.Sorted pyStrR ((_merge_items baseEx presetEx).map itemKey) ∧
    ((_merge_items baseEx presetEx).map itemKey).Nodup :=
  ⟨(C5_merge_items baseEx presetEx (by decide) (by decide) (by decide) (by decide)).2.2.2.2.2
      [itemEx "帽子" "攻擊力 : +9%", itemEx "戒指" "道具掉落率 : +20%"]
      [itemEx "帽子" "爆擊率 : +8%", itemEx "武器" "攻擊力 : +12%"]
      (List.Perm.swap (itemEx "戒指" "道具掉落率 : +20%") (itemEx "帽子" "攻擊力 : +9%") [])
      (List.Perm.swap (itemEx "武器" "攻擊力 : +12%") (itemEx "帽子" "爆擊率 : +8%") []),
    (C5_merge_items baseEx presetEx (by decide) (by decide) (by decide) (by decide)).2.2.2.2.1,
    (C5_merge_items baseEx presetEx (by decide) (by decide) (by decide) (by decide)).2.2.2.1⟩
